import Mathlib

/-!
Verification development for the `fastcam` repository (files `maps.py` and
`misc.py`).

The embedding is shallow: a PyTorch tensor is modelled as a total function
from integer indices to real numbers, with the relevant extents passed
explicitly wherever the source reads `.size()`.  Floating point arithmetic
is modelled by exact real arithmetic; the decimal constants of
`TruncNormalEntMap.__init__` are modelled by the exact expressions the
source gives for them in its own comments (`1.0/math.sqrt(2.0*math.pi)`,
`math.sqrt(2.0)`, `math.sqrt(2.0*math.pi*math.exp(1))`).  Division by zero
follows the Lean convention `x / 0 = 0`.
-/

open scoped BigOperators

namespace FastCam

/-- Model of a 4D tensor `[batch, channel, height, width]`. -/
abbrev T4 : Type := ℕ → ℕ → ℕ → ℕ → ℝ

/-- Model of a 3D tensor `[batch, height, width]`. -/
abbrev T3 : Type := ℕ → ℕ → ℕ → ℝ

/-- The additive guard `0.0000001` used by `maps.py` (both in `SMOEScaleMap.forward`
line 46 and `TruncNormalEntMap.forward` line 131). -/
noncomputable def eps : ℝ := 0.0000001

/-- The error function, `erf z = 2/sqrt(pi) * integral of exp(-t^2) from 0 to z`.
This is the mathematical function that `torch.erf` computes. -/
noncomputable def erf (z : ℝ) : ℝ :=
  2 / Real.sqrt Real.pi * ∫ t in (0 : ℝ)..z, Real.exp (-t ^ 2)

/-- Mean over the channel axis (`torch.mean(x, dim=1)` on a 4D tensor),
channel count `c`. -/
noncomputable def chanMean (c : ℕ) (x : T4) : T3 := fun i y j =>
  (∑ k ∈ Finset.range c, x i k y j) / c

/-- Unbiased standard deviation over the channel axis (`torch.std(x, dim=1)`,
which uses Bessel correction `n - 1`). -/
noncomputable def chanStd (c : ℕ) (x : T4) : T3 := fun i y j =>
  Real.sqrt ((∑ k ∈ Finset.range c, (x i k y j - chanMean c x i y j) ^ 2) / ((c : ℝ) - 1))

/-- `SMOEScaleMap.forward` (maps.py lines 31-56, with `run_relu=False`):
`x = x + 0.0000001`, `m = torch.mean(x, dim=1)`,
`k = torch.log2(m) - torch.mean(torch.log2(x), dim=1)`, `th = k * m`. -/
noncomputable def smoeScaleMap (c : ℕ) (x : T4) : T3 := fun i y j =>
  let m := (∑ k ∈ Finset.range c, (x i k y j + eps)) / c
  (Real.logb 2 m - (∑ k ∈ Finset.range c, Real.logb 2 (x i k y j + eps)) / c) * m

/-- Constant `c1 = 1.0/math.sqrt(2.0*math.pi)` of `TruncNormalEntMap.__init__`. -/
noncomputable def tc1 : ℝ := 1 / Real.sqrt (2 * Real.pi)

/-- Constant `c2 = math.sqrt(2.0)` of `TruncNormalEntMap.__init__`. -/
noncomputable def tc2 : ℝ := Real.sqrt 2

/-- Constant `c3 = math.sqrt(2.0*math.pi*math.exp(1))` of `TruncNormalEntMap.__init__`. -/
noncomputable def tc3 : ℝ := Real.sqrt (2 * Real.pi * Real.exp 1)

/-- `TruncNormalEntMap._compute_alpha` with the default truncation point `a = 0`. -/
noncomputable def computeAlpha (mean std : ℝ) : ℝ := (0 - mean) / std

/-- `TruncNormalEntMap._compute_pdf`: `pdf = c1 * exp(-0.5 * eta^2)`. -/
noncomputable def computePdf (eta : ℝ) : ℝ := tc1 * Real.exp (-0.5 * eta ^ 2)

/-- `TruncNormalEntMap._compute_cdf`: `cdf = 0.5 * (1 + erf(eta / c2))`. -/
noncomputable def computeCdf (eta : ℝ) : ℝ := 0.5 * (1 + erf (eta / tc2))

/-- `TruncNormalEntMap.forward` (maps.py lines 122-137):
`m = mean(x, dim=1)`, `s = std(x, dim=1)`, `a = (0 - m)/s`,
`pdf = c1 * exp(-0.5 a^2)`, `cdf = 0.5*(1 + erf(a/c2)) + 0.0000001`,
`Z = 1.0 - cdf`, `ent = log(c3*s*Z) + (a*pdf)/(2.0*Z)`.
Note the source adds the epsilon to the cdf and only then forms `Z = 1 - cdf`. -/
noncomputable def truncNormalEntMap (c : ℕ) (x : T4) : T3 := fun i y j =>
  let m := chanMean c x i y j
  let s := chanStd c x i y j
  let a := computeAlpha m s
  let pdf := computePdf a
  let cdf := computeCdf a + eps
  let Z := 1 - cdf
  Real.log (tc3 * s * Z) + a * pdf / (2 * Z)

/-- Spatial mean of one batch sample after flattening `[H, W]` to `H*W`
(`Normalize2D.forward`: `x.reshape(s0, s1*s2)` then `mean(dim=1)`). -/
noncomputable def spatMean (h w : ℕ) (x : T3) (i : ℕ) : ℝ :=
  (∑ y ∈ Finset.range h, ∑ j ∈ Finset.range w, x i y j) / (h * w)

/-- Spatial unbiased standard deviation of one flattened batch sample
(`Normalize2D.forward`: `x.std(dim=1)`, Bessel-corrected). -/
noncomputable def spatStd (h w : ℕ) (x : T3) (i : ℕ) : ℝ :=
  Real.sqrt ((∑ y ∈ Finset.range h, ∑ j ∈ Finset.range w, (x i y j - spatMean h w x i) ^ 2)
    / ((h * w : ℕ) - 1 : ℝ))

/-- `Normalize2D.forward` (maps.py lines 155-180):
`x = 0.5*(1.0 + torch.erf((x - m)/(s * torch.sqrt(torch.tensor(2.0)))))`
where `m`, `s` are the per-sample mean and std of the flattened spatial values. -/
noncomputable def normalize2D (h w : ℕ) (x : T3) : T3 := fun i y j =>
  0.5 * (1 + erf ((x i y j - spatMean h w x i) / (spatStd h w x i * Real.sqrt 2)))

/-- Source coordinate of `nn.functional.interpolate(..., mode=bilinear,
align_corners=False)`: `max(0, (d + 0.5) * nIn/nOut - 0.5)`, computed here in
exact rational arithmetic. -/
def srcIndex (nIn nOut : ℕ) (d : ℕ) : ℚ :=
  max 0 ((nIn : ℚ) / (nOut : ℚ) * ((d : ℚ) + 1 / 2) - 1 / 2)

/-- Bilinear resize of a 3D map from `[hIn, wIn]` to `[hOut, wOut]` with
`align_corners=False`, following the PyTorch kernel: lower source index is the
floor of the (clamped) source coordinate, the upper index is the next row or
column when one exists, and the four neighbours are blended with the
fractional parts. -/
noncomputable def bilinearResize (hIn wIn hOut wOut : ℕ) (x : T3) : T3 := fun i y j =>
  let sy := srcIndex hIn hOut y
  let sx := srcIndex wIn wOut j
  let y0 : ℕ := (⌊sy⌋).toNat
  let x0 : ℕ := (⌊sx⌋).toNat
  let y1 : ℕ := if y0 < hIn - 1 then y0 + 1 else y0
  let x1 : ℕ := if x0 < wIn - 1 then x0 + 1 else x0
  let ly : ℝ := ((sy - (y0 : ℚ) : ℚ) : ℝ)
  let lx : ℝ := ((sx - (x0 : ℚ) : ℚ) : ℝ)
  (1 - ly) * ((1 - lx) * x i y0 x0 + lx * x i y0 x1) +
    ly * ((1 - lx) * x i y1 x0 + lx * x i y1 x1)

/-- Model of the dynamically typed `weights` argument of
`CombineSaliencyMaps.__init__`: Python `None`, a bare float, or a list of
floats (the docstring's `[1, 2, 3, 4, 5]` form). -/
inductive PyW where
  | none : PyW
  | float (r : ℝ) : PyW
  | list (ws : List ℝ) : PyW

/-- Weight validation/broadcast of `CombineSaliencyMaps.__init__`
(maps.py lines 212-219) under Python dynamic-typing semantics:
`None` becomes `[1.0]*map_num`; a bare float reaches `len(weights)` which
raises `TypeError` (floats have no length); a one-element list reaches
`assert(weights > 0)` which compares a list with the integer `0` and raises
`TypeError` in Python 3; any other list must have length `map_num`. -/
def combineInitWeights (weights : PyW) (mapNum : ℕ) : Except String (List ℝ) :=
  match weights with
  | PyW.none => Except.ok (List.replicate mapNum 1)
  | PyW.float _ => Except.error "TypeError: object of type float has no len"
  | PyW.list ws =>
    if ws.length = 1 then
      Except.error "TypeError: gt not supported between instances of list and int"
    else if ws.length = mapNum then Except.ok ws
    else Except.error "AssertionError"

/-- Per-layer processing of `CombineSaliencyMaps.forward` (maps.py lines
249-265): resize the map to the output size, and square it elementwise when
`magnitude` is set. -/
noncomputable def procMap (outH outW : ℕ) (magnitude : Bool) (m : (ℕ × ℕ) × T3) : T3 :=
  let r := bilinearResize m.1.1 m.1.2 outH outW m.2
  if magnitude then fun i y j => r i y j * r i y j else r

/-- Zero 3D tensor (used to model `torch.zeros`). -/
noncomputable def zero3 : T3 := fun _ _ _ => 0

/-- Zero 4D tensor (used to model `torch.zeros`). -/
noncomputable def zero4 : T4 := fun _ _ _ _ => 0

/-- `CombineSaliencyMaps.forward` (maps.py lines 231-273) with the validated
weight list: each input map (carrying its own `[h, w]` extents) is resized
(and squared in magnitude mode), the combined map is the weighted running sum
divided by `weight_sum` (the plain sum of the weights, maps.py lines
221-224 and 267), and the stacked output keeps each processed per-layer map. -/
noncomputable def combineForward (outH outW : ℕ) (weights : List ℝ) (magnitude : Bool)
    (smaps : List ((ℕ × ℕ) × T3)) : T3 × T4 :=
  let ww : List T3 := smaps.map (procMap outH outW magnitude)
  (fun i y j =>
      (∑ l ∈ Finset.range smaps.length, weights.getD l 0 * ww.getD l zero3 i y j)
        / weights.sum,
    fun i l y j => ww.getD l zero3 i y j)

/-- Maximum entry of a 4D tensor over extents `[b, c, h, w]` (`torch.max(in_tensor)`). -/
noncomputable def tmax4 (b c h w : ℕ) (x : T4) : ℝ :=
  ((List.range b).flatMap fun i => (List.range c).flatMap fun k =>
      (List.range h).flatMap fun y => (List.range w).map fun j => x i k y j).foldl
    max (x 0 0 0 0)

/-- Minimum entry of a 4D tensor over extents `[b, c, h, w]` (`torch.min(in_tensor)`). -/
noncomputable def tmin4 (b c h w : ℕ) (x : T4) : ℝ :=
  ((List.range b).flatMap fun i => (List.range c).flatMap fun k =>
      (List.range h).flatMap fun y => (List.range w).map fun j => x i k y j).foldl
    min (x 0 0 0 0)

/-- Abstraction of one attached observer together with the model: given the
tensor fed to the model's forward pass, `f` returns the 4D activation the hook
has captured afterwards, with channel count `c` and spatial extents `h`, `w`. -/
structure Hook where
  c : ℕ
  h : ℕ
  w : ℕ
  f : T4 → T4

/-- The noise standard deviation of `SmoothGrad.__call__` (misc.py line 276):
`stdev = self.stdev_spread * (torch.max(in_tensor) - torch.min(in_tensor))`,
computed once per invocation from the unperturbed input. -/
noncomputable def sgStdev (spread : ℝ) (b c h w : ℕ) (inT : T4) : ℝ :=
  spread * (tmax4 b c h w inT - tmin4 b c h w inT)

/-- The model input of iteration `i` (misc.py lines 290-291):
`noise = torch.normal(mean=0, std=stdev, size=in_tensor.size())` followed by
`in_tensor_noise = in_tensor + noise`.  The random generator is modelled by an
oracle `u` of independent standard normal draws, one fresh 4D draw per
iteration; a normal draw with standard deviation `stdev` is `stdev` times a
standard draw. -/
noncomputable def sgModelInput (inT : T4) (stdev : ℝ) (u : ℕ → T4) (i : ℕ) : T4 :=
  fun a k y j => inT a k y j + stdev * u i a k y j

/-- One iteration's saliency maps (misc.py lines 296-299): run the model on
the perturbed input (which makes every hook capture its activation), apply
`Normalize2D(SMOEScaleMap(x.data))` per hook, and combine. -/
noncomputable def sgIterMaps (inH inW : ℕ) (mapsMag : Bool) (ws : List ℝ)
    (hooks : List Hook) (inp : T4) : T3 × T4 :=
  combineForward inH inW ws mapsMag
    (hooks.map fun hk => ((hk.h, hk.w), normalize2D hk.h hk.w (smoeScaleMap hk.c (hk.f inp))))

/-- The non-debug accumulation loop of `SmoothGrad.__call__` (misc.py lines
284-311): both accumulators start at `torch.zeros`, and iteration `i` adds
either the squared maps (`self.magnitude`) or the maps themselves.
`sgAccum magnitude per n` is the state after iterations `0, ..., n-1`. -/
noncomputable def sgAccum (magnitude : Bool) (per : ℕ → T3 × T4) : ℕ → T3 × T4
  | 0 => (zero3, zero4)
  | n + 1 =>
    let acc := sgAccum magnitude per n
    if magnitude then
      (fun i y j => acc.1 i y j + (per n).1 i y j * (per n).1 i y j,
        fun i l y j => acc.2 i l y j + (per n).2 i l y j * (per n).2 i l y j)
    else
      (fun i y j => acc.1 i y j + (per n).1 i y j,
        fun i l y j => acc.2 i l y j + (per n).2 i l y j)

/-- `SmoothGrad.__call__` in non-debug mode (misc.py lines 267-317).
Arguments mirror the constructor fields (`iters`, `magnitude`,
`stdev_spread`, `maps_magnitude`) and the call arguments (`in_tensor` with
its extents, the hook list, and the raw `weights` object that is passed to
`CombineSaliencyMaps.__init__`).  The construction of `getCsmap` validates
`output_size=[in_height, in_width]`, `map_num=len(hooks)` and the weights,
so a validation failure there aborts the call; afterwards the fixed noise
scale is computed once and the loop accumulates per-iteration maps, finally
dividing both accumulators by `iters`. -/
noncomputable def smoothGradCall (iters : ℕ) (magnitude : Bool) (spread : ℝ)
    (mapsMag : Bool) (b c inH inW : ℕ) (inT : T4) (hooks : List Hook)
    (weights : PyW) (u : ℕ → T4) : Except String (T3 × T4) :=
  if 0 < inH ∧ 0 < inW ∧ 0 < hooks.length then
    match combineInitWeights weights hooks.length with
    | Except.error e => Except.error e
    | Except.ok ws =>
      let stdev := sgStdev spread b c inH inW inT
      let per := fun i => sgIterMaps inH inW mapsMag ws hooks (sgModelInput inT stdev u i)
      let acc := sgAccum magnitude per iters
      Except.ok
        (fun i y j => acc.1 i y j / iters, fun i l y j => acc.2 i l y j / iters)
  else Except.error "AssertionError"

/-- Modelled from the spec: the static single-pass pipeline that section 8 of
the specification describes - apply `RangeNormalizer(ScaleMapEngine(activation))`
to each observed layer's activation of the unperturbed input and feed the
resulting fields into the map combiner. -/
noncomputable def singlePassPipeline (inH inW : ℕ) (mapsMag : Bool) (ws : List ℝ)
    (hooks : List Hook) (inT : T4) : T3 × T4 :=
  combineForward inH inW ws mapsMag
    (hooks.map fun hk => ((hk.h, hk.w), normalize2D hk.h hk.w (smoeScaleMap hk.c (hk.f inT))))

/-- Value held by a capture observer: `CaptureLayerOutput` stores a single
tensor (modelled with its leading-axis extent `b`, since Python `len` of a
tensor is its first dimension), while `CaptureLayerInput` stores a Python
list of tensors, one per input argument position. -/
inductive PyData where
  | tens (b : ℕ) (x : T4) : PyData
  | lst (l : List T4) : PyData

/-- Result of indexing a stored capture: indexing a 4D tensor yields a 3D
slice along the first axis, indexing the input list yields a 4D tensor. -/
inductive PyObj where
  | t3 (x : T3) : PyObj
  | t4 (x : T4) : PyObj

/-- State of a `CaptureLayerData` object: the configured device (`None`
accepts any device, modelled as `Option ℕ` over abstract device ids) and the
captured `data` (initially `None`). -/
structure Capture where
  device : Option ℕ
  data : Option PyData

/-- Python `len` of the stored capture. -/
def pyDataLen : PyData → ℕ
  | PyData.tens b _ => b
  | PyData.lst l => l.length

/-- Python `self.data[idx]`: slicing a tensor along its first axis, or list
indexing; out-of-range indexing raises `IndexError`. -/
def pyDataItem : PyData → ℕ → Except String PyObj
  | PyData.tens b x, idx =>
    if idx < b then Except.ok (PyObj.t3 fun k y j => x idx k y j)
    else Except.error "IndexError"
  | PyData.lst l, idx =>
    match l[idx]? with
    | some t => Except.ok (PyObj.t4 t)
    | Option.none => Except.error "IndexError"

/-- `CaptureLayerData.get` (misc.py lines 44-49):
`if self.data is not None and idx <= len(self.data): return self.data[idx]
else: return None`.  Note the non-strict bound, so `idx = len(self.data)`
attempts the indexing (and raises `IndexError`). -/
def captureGet (cap : Capture) (idx : ℕ) : Except String (Option PyObj) :=
  match cap.data with
  | some d => if idx ≤ pyDataLen d then (pyDataItem d idx).map some else Except.ok Option.none
  | Option.none => Except.ok Option.none

/-- `CaptureLayerOutput.__call__` (misc.py lines 58-62): when the configured
device is `None` or equals the output's device, store the (detached) output
tensor; otherwise leave the state untouched.  `post_process=detach` is the
identity on values. -/
def captureOutputCall (cap : Capture) (oDev oB : ℕ) (o : T4) : Capture :=
  if cap.device = Option.none ∨ cap.device = some oDev then
    { cap with data := some (PyData.tens oB o) }
  else cap

/-- `CaptureLayerInput.__call__` (misc.py lines 71-79): under the same device
test (against the output's device), store the list of the layer's (detached)
input tensors, one per argument position. -/
def captureInputCall (cap : Capture) (oDev : ℕ) (inputs : List T4) : Capture :=
  if cap.device = Option.none ∨ cap.device = some oDev then
    { cap with data := some (PyData.lst inputs) }
  else cap

/-- Heap cell for the store-passing model of `SmoothGrad.__call__`. -/
inductive HVal where
  | v3 (x : T3) : HVal
  | v4 (x : T4) : HVal

/-- Store of allocated tensors; an address is an index into the list. -/
abbrev Store : Type := List HVal

/-- Read a 4D tensor from the store (zero tensor on a dangling address). -/
noncomputable def readT4 (st : Store) (a : ℕ) : T4 :=
  match st[a]? with
  | some (HVal.v4 x) => x
  | _ => zero4

/-- Read a 3D tensor from the store (zero tensor on a dangling address). -/
noncomputable def readT3 (st : Store) (a : ℕ) : T3 :=
  match st[a]? with
  | some (HVal.v3 x) => x
  | _ => zero3

/-- One loop iteration of `SmoothGrad.__call__` in the store-passing model
(misc.py lines 287-311).  `torch.normal` and `in_tensor + noise` allocate
fresh tensors (the base input is read from the store each iteration, never
written); in debug mode no tensor is written, otherwise `out_csmap += ...`
and `out_smaps += ...` write in place at the accumulator addresses. -/
noncomputable def sgHeapIter (magnitude : Bool) (stdev : ℝ) (inH inW : ℕ)
    (mapsMag : Bool) (ws : List ℝ) (hooks : List Hook) (u : ℕ → T4)
    (debug : Bool) (inAddr cAddr sAddr : ℕ) (i : ℕ) (st : Store) : Store :=
  let inT := readT4 st inAddr
  let noise : T4 := fun a k y j => stdev * u i a k y j
  let inNoise : T4 := fun a k y j => inT a k y j + noise a k y j
  let st1 := st ++ [HVal.v4 noise, HVal.v4 inNoise]
  let maps := sgIterMaps inH inW mapsMag ws hooks inNoise
  if debug then st1
  else
    let oc := readT3 st1 cAddr
    let os := readT4 st1 sAddr
    if magnitude then
      (st1.set cAddr (HVal.v3 fun a y j => oc a y j + maps.1 a y j * maps.1 a y j)).set
        sAddr (HVal.v4 fun a l y j => os a l y j + maps.2 a l y j * maps.2 a l y j)
    else
      (st1.set cAddr (HVal.v3 fun a y j => oc a y j + maps.1 a y j)).set
        sAddr (HVal.v4 fun a l y j => os a l y j + maps.2 a l y j)

/-- Run iterations `0, ..., n-1` of a store-passing loop in ascending order. -/
noncomputable def sgHeapLoop (step : ℕ → Store → Store) : ℕ → Store → Store
  | 0, st => st
  | n + 1, st => step n (sgHeapLoop step n st)

/-- `SmoothGrad.__call__` in the store-passing model (misc.py lines 267-317):
the noise scale is computed once from the input read at `inAddr`; in
non-debug mode the two zero accumulators are allocated, the loop runs, and
the final `out_csmap /= self.iters` and `out_smaps /= self.iters` write in
place at the accumulator addresses.  Returns the final store and the two
accumulator addresses. -/
noncomputable def sgHeapCall (iters : ℕ) (magnitude : Bool) (spread : ℝ)
    (mapsMag : Bool) (b c inH inW : ℕ) (ws : List ℝ) (hooks : List Hook)
    (u : ℕ → T4) (debug : Bool) (st : Store) (inAddr : ℕ) : Store × ℕ × ℕ :=
  let inT := readT4 st inAddr
  let stdev := sgStdev spread b c inH inW inT
  let cAddr := st.length
  let sAddr := st.length + 1
  let st1 := if debug then st else st ++ [HVal.v3 zero3, HVal.v4 zero4]
  let st2 := sgHeapLoop
    (sgHeapIter magnitude stdev inH inW mapsMag ws hooks u debug inAddr cAddr sAddr) iters st1
  let st3 :=
    if debug then st2
    else
      (st2.set cAddr (HVal.v3 fun a y j => readT3 st2 cAddr a y j / iters)).set
        sAddr (HVal.v4 fun a l y j => readT4 st2 sAddr a l y j / iters)
  (st3, cAddr, sAddr)

/-- The truncated-normal entropy statistic exactly as claim C1 words it:
`m` and `s` are the channel mean and unbiased channel standard deviation,
`alpha = (0 - m)/s`, `phi` and `Phi` the standard normal pdf and cdf, the
survival term `Z = 1 - Phi(alpha) + eps`, and the entropy is
`log(sqrt(2*pi*e) * s * Z) + (alpha * phi(alpha)) / (2 * Z)`. -/
noncomputable def claimedTruncNormalEnt (c : ℕ) (x : T4) : T3 := fun i y j =>
  let m := chanMean c x i y j
  let s := chanStd c x i y j
  let a := (0 - m) / s
  let phi := 1 / Real.sqrt (2 * Real.pi) * Real.exp (-a ^ 2 / 2)
  let Phi := 0.5 * (1 + erf (a / Real.sqrt 2))
  let Z := 1 - Phi + eps
  Real.log (Real.sqrt (2 * Real.pi * Real.exp 1) * s * Z) + a * phi / (2 * Z)

/-- Claim C1 amended: the same statistic with the survival term as the source
actually computes it, `Z = 1 - (Phi(alpha) + eps)`, the epsilon being added to
the cdf before the survival is formed. -/
noncomputable def amendedTruncNormalEnt (c : ℕ) (x : T4) : T3 := fun i y j =>
  let m := chanMean c x i y j
  let s := chanStd c x i y j
  let a := (0 - m) / s
  let phi := 1 / Real.sqrt (2 * Real.pi) * Real.exp (-a ^ 2 / 2)
  let Phi := 0.5 * (1 + erf (a / Real.sqrt 2))
  let Z := 1 - (Phi + eps)
  Real.log (Real.sqrt (2 * Real.pi * Real.exp 1) * s * Z) + a * phi / (2 * Z)

/-- Concrete two-channel input for the C1 counterexample: at every pixel the
channel values are `-1` and `1`, so the channel mean is `0`, the channel
standard deviation is `sqrt 2`, and the truncation point `alpha` is `0`. -/
noncomputable def tneX : T4 := fun _ k _ _ => if k = 0 then -1 else 1

/-- Concrete two-channel activation `[1, 2, 1, 3]` for the C5 counterexample.
Pixel 0 has equal channels `(1, 1)`; pixels 1 and 2 have channels
`(1 - eps, 2 - eps)` and `(2 - eps, 4 - eps)`, chosen so that after the SMOE
epsilon shift the channel pairs are `(1, 2)` and `(2, 4)` and the SMOE values
of the three pixels are `0`, `t`, `2t` - making pixel 1 sit exactly at the
spatial mean of the SMOE map. -/
noncomputable def cexAct : T4 := fun _ k _ j =>
  if j = 0 then 1
  else if j = 1 then (if k = 0 then 1 - eps else 2 - eps)
  else (if k = 0 then 2 - eps else 4 - eps)

/-- Hook for the C5 counterexample: a constant observer that always captures
`cexAct` (channel count 2, spatial extents 1 x 3). -/
noncomputable def cexHook : Hook := ⟨2, 1, 3, fun _ => cexAct⟩

/-- Input image for the C5 counterexample (extents `[1, 3, 1, 3]`, all zero;
its values are irrelevant because the hook is constant and the noise scale is
forced to zero). -/
noncomputable def cexIn : T4 := zero4

/-- Standard-normal oracle that always draws zero, used where the draws are
irrelevant. -/
noncomputable def uZero : ℕ → T4 := fun _ => zero4

lemma gaussian_integrableOn_Ioi :
    MeasureTheory.IntegrableOn (fun t : ℝ => Real.exp (-t ^ 2)) (Set.Ioi 0) := by
  have h : MeasureTheory.Integrable (fun t : ℝ => Real.exp (-1 * t ^ 2)) :=
    integrable_exp_neg_mul_sq one_pos
  simpa using h.integrableOn

lemma gaussian_int_nonneg (z : ℝ) (hz : 0 ≤ z) :
    0 ≤ ∫ t in (0 : ℝ)..z, Real.exp (-t ^ 2) :=
  intervalIntegral.integral_nonneg hz fun _ _ => (Real.exp_pos _).le

lemma gaussian_int_le (z : ℝ) (hz : 0 ≤ z) :
    (∫ t in (0 : ℝ)..z, Real.exp (-t ^ 2)) ≤ Real.sqrt Real.pi / 2 := by
  rw [intervalIntegral.integral_of_le hz]
  have h1 : (∫ t in Set.Ioc (0 : ℝ) z, Real.exp (-t ^ 2)) ≤
      ∫ t in Set.Ioi (0 : ℝ), Real.exp (-t ^ 2) := by
    apply MeasureTheory.setIntegral_mono_set gaussian_integrableOn_Ioi
    · exact MeasureTheory.ae_of_all _ fun t => (Real.exp_pos _).le
    · exact Set.Ioc_subset_Ioi_self.eventuallyLE
  have h2 : (∫ t in Set.Ioi (0 : ℝ), Real.exp (-t ^ 2)) = Real.sqrt Real.pi / 2 := by
    have h3 := integral_gaussian_Ioi 1
    simpa using h3
  linarith

lemma erf_zero : erf 0 = 0 := by
  simp [erf, intervalIntegral.integral_same]

lemma erf_neg (z : ℝ) : erf (-z) = -erf z := by
  unfold erf
  have h : (∫ t in (0 : ℝ)..(-z), Real.exp (-t ^ 2)) =
      -∫ t in (0 : ℝ)..z, Real.exp (-t ^ 2) := by
    have h1 : (∫ t in (0 : ℝ)..(-z), Real.exp (-t ^ 2)) =
        ∫ t in (0 : ℝ)..(-z), Real.exp (-(-t) ^ 2) := by
      simp only [neg_sq]
    rw [h1, intervalIntegral.integral_comp_neg fun t => Real.exp (-t ^ 2)]
    rw [neg_neg, neg_zero, intervalIntegral.integral_symm]
  rw [h]; ring

lemma erf_nonneg_of_nonneg (z : ℝ) (hz : 0 ≤ z) : 0 ≤ erf z :=
  mul_nonneg (div_nonneg two_pos.le (Real.sqrt_nonneg _)) (gaussian_int_nonneg z hz)

lemma erf_le_one (z : ℝ) : erf z ≤ 1 := by
  rcases le_or_lt 0 z with hz | hz
  · have h1 := gaussian_int_le z hz
    have hπ : 0 < Real.sqrt Real.pi := Real.sqrt_pos.mpr Real.pi_pos
    have h2 : 2 / Real.sqrt Real.pi * (Real.sqrt Real.pi / 2) = 1 := by field_simp
    have h3 : 2 / Real.sqrt Real.pi *
        (∫ t in (0 : ℝ)..z, Real.exp (-t ^ 2)) ≤
        2 / Real.sqrt Real.pi * (Real.sqrt Real.pi / 2) :=
      mul_le_mul_of_nonneg_left h1 (by positivity)
    calc erf z ≤ 2 / Real.sqrt Real.pi * (Real.sqrt Real.pi / 2) := h3
      _ = 1 := h2
  · have h1 := erf_nonneg_of_nonneg (-z) (by linarith)
    have h2 := erf_neg z
    linarith

lemma neg_one_le_erf (z : ℝ) : -1 ≤ erf z := by
  have h1 := erf_le_one (-z)
  have h2 := erf_neg z
  linarith

lemma log_mean_le (c : ℕ) (hc : 0 < c) (f : ℕ → ℝ) (hf : ∀ k, k < c → 0 < f k) :
    (∑ k ∈ Finset.range c, Real.log (f k)) / c ≤
      Real.log ((∑ k ∈ Finset.range c, f k) / c) := by
  have hcr : (0 : ℝ) < c := Nat.cast_pos.mpr hc
  have hw1 : ∑ _k ∈ Finset.range c, ((c : ℝ))⁻¹ = 1 := by
    rw [Finset.sum_const, Finset.card_range, nsmul_eq_mul, mul_inv_cancel₀ hcr.ne']
  have hgm := Real.geom_mean_le_arith_mean_weighted (Finset.range c)
    (fun _ => ((c : ℝ))⁻¹) f (fun _ _ => by positivity) hw1
    (fun k hk => (hf k (Finset.mem_range.mp hk)).le)
  have hprod : ∀ k ∈ Finset.range c, (0 : ℝ) < f k ^ ((c : ℝ))⁻¹ :=
    fun k hk => Real.rpow_pos_of_pos (hf k (Finset.mem_range.mp hk)) _
  have hppos : 0 < ∏ k ∈ Finset.range c, f k ^ ((c : ℝ))⁻¹ := Finset.prod_pos hprod
  have hsum : (∑ k ∈ Finset.range c, ((c : ℝ))⁻¹ * f k) =
      (∑ k ∈ Finset.range c, f k) / c := by
    rw [← Finset.mul_sum]; ring
  have hmean : 0 < (∑ k ∈ Finset.range c, f k) / c := by
    apply div_pos _ hcr
    exact Finset.sum_pos (fun k hk => hf k (Finset.mem_range.mp hk))
      (Finset.nonempty_range_iff.mpr hc.ne')
  have hlog : Real.log (∏ k ∈ Finset.range c, f k ^ ((c : ℝ))⁻¹) ≤
      Real.log ((∑ k ∈ Finset.range c, f k) / c) := by
    apply (Real.log_le_log_iff hppos hmean).mpr
    calc (∏ k ∈ Finset.range c, f k ^ ((c : ℝ))⁻¹)
        ≤ ∑ k ∈ Finset.range c, ((c : ℝ))⁻¹ * f k := hgm
      _ = (∑ k ∈ Finset.range c, f k) / c := hsum
  calc (∑ k ∈ Finset.range c, Real.log (f k)) / c
      = Real.log (∏ k ∈ Finset.range c, f k ^ ((c : ℝ))⁻¹) := by
        rw [Real.log_prod _ _ fun k hk => (hprod k hk).ne']
        rw [Finset.sum_congr rfl fun k hk =>
          Real.log_rpow (hf k (Finset.mem_range.mp hk)) ((c : ℝ))⁻¹]
        rw [← Finset.mul_sum]
        ring
    _ ≤ _ := hlog

lemma srcIndex_self (n : ℕ) (hn : 0 < n) (d : ℕ) : srcIndex n n d = d := by
  unfold srcIndex
  have h : (n : ℚ) ≠ 0 := Nat.cast_ne_zero.mpr hn.ne'
  rw [div_self h, one_mul, add_sub_cancel_right]
  exact max_eq_right (by positivity)

lemma bilinearResize_self (n m : ℕ) (hn : 0 < n) (hm : 0 < m) (x : T3) :
    bilinearResize n m n m x = x := by
  funext i y j
  simp only [bilinearResize, srcIndex_self n hn, srcIndex_self m hm]
  rw [Int.floor_natCast, Int.toNat_natCast, Int.floor_natCast, Int.toNat_natCast]
  rw [sub_self, sub_self]
  push_cast
  ring

lemma sgAccum_magnitude (per : ℕ → T3 × T4) (n : ℕ) :
    sgAccum true per n =
      (fun i y j => ∑ t ∈ Finset.range n, (per t).1 i y j * (per t).1 i y j,
        fun i l y j => ∑ t ∈ Finset.range n, (per t).2 i l y j * (per t).2 i l y j) := by
  induction n with
  | zero =>
    simp only [sgAccum, Finset.sum_range_zero]
    exact Prod.ext rfl rfl
  | succ n ih => simp [sgAccum, ih, Finset.sum_range_succ]

lemma sgAccum_linear (per : ℕ → T3 × T4) (n : ℕ) :
    sgAccum false per n =
      (fun i y j => ∑ t ∈ Finset.range n, (per t).1 i y j,
        fun i l y j => ∑ t ∈ Finset.range n, (per t).2 i l y j) := by
  induction n with
  | zero =>
    simp only [sgAccum, Finset.sum_range_zero]
    exact Prod.ext rfl rfl
  | succ n ih => simp [sgAccum, ih, Finset.sum_range_succ]

lemma smoe_two (x : T4) (i y j : ℕ) :
    smoeScaleMap 2 x i y j =
      (Real.logb 2 ((x i 0 y j + eps + (x i 1 y j + eps)) / 2) -
        (Real.logb 2 (x i 0 y j + eps) + Real.logb 2 (x i 1 y j + eps)) / 2) *
        ((x i 0 y j + eps + (x i 1 y j + eps)) / 2) := by
  simp [smoeScaleMap, Finset.sum_range_succ]

lemma cex_smoe0 : smoeScaleMap 2 cexAct 0 0 0 = 0 := by
  rw [smoe_two]
  have h0 : cexAct 0 0 0 0 = 1 := by simp [cexAct]
  have h1 : cexAct 0 1 0 0 = 1 := by simp [cexAct]
  rw [h0, h1, show (1 : ℝ) + eps + (1 + eps) = (1 + eps) * 2 by ring]
  rw [mul_div_cancel_right₀ _ (two_ne_zero)]
  ring

lemma cex_smoe1 : smoeScaleMap 2 cexAct 0 0 1 = (Real.logb 2 3 - 3 / 2) * (3 / 2) := by
  rw [smoe_two]
  have h0 : cexAct 0 0 0 1 = 1 - eps := by simp [cexAct]
  have h1 : cexAct 0 1 0 1 = 2 - eps := by simp [cexAct]
  rw [h0, h1, show (1 : ℝ) - eps + eps = 1 by ring, show (2 : ℝ) - eps + eps = 2 by ring]
  rw [show ((1 : ℝ) + 2) / 2 = 3 / 2 by norm_num]
  rw [Real.logb_one, Real.logb_self_eq_one one_lt_two]
  rw [show (3 : ℝ) / 2 = 3 / 2 by norm_num, Real.logb_div (by norm_num) (by norm_num)]
  rw [Real.logb_self_eq_one one_lt_two]
  ring

lemma cex_smoe2 : smoeScaleMap 2 cexAct 0 0 2 = (Real.logb 2 3 - 3 / 2) * 3 := by
  rw [smoe_two]
  have h0 : cexAct 0 0 0 2 = 2 - eps := by simp [cexAct]
  have h1 : cexAct 0 1 0 2 = 4 - eps := by simp [cexAct]
  rw [h0, h1, show (2 : ℝ) - eps + eps = 2 by ring, show (4 : ℝ) - eps + eps = 4 by ring]
  rw [show ((2 : ℝ) + 4) / 2 = 3 by norm_num]
  rw [Real.logb_self_eq_one one_lt_two]
  rw [show (4 : ℝ) = 2 ^ (2 : ℕ) by norm_num, Real.logb_pow, Real.logb_self_eq_one one_lt_two]
  push_cast
  ring

lemma cex_mean : spatMean 1 3 (smoeScaleMap 2 cexAct) 0 = (Real.logb 2 3 - 3 / 2) * (3 / 2) := by
  unfold spatMean
  rw [Finset.sum_range_one]
  rw [show (Finset.range 3) = Finset.range (2 + 1) from rfl, Finset.sum_range_succ,
    Finset.sum_range_succ, Finset.sum_range_one]
  rw [cex_smoe0, cex_smoe1, cex_smoe2]
  push_cast
  ring

lemma cex_norm : normalize2D 1 3 (smoeScaleMap 2 cexAct) 0 0 1 = 1 / 2 := by
  unfold normalize2D
  rw [cex_smoe1, cex_mean, sub_self, zero_div, erf_zero]
  norm_num

lemma cex_combine_val :
    (combineForward 1 3 [1] false [((1, 3), normalize2D 1 3 (smoeScaleMap 2 cexAct))]).1 0 0 1 =
      1 / 2 := by
  have hr : bilinearResize 1 3 1 3 (normalize2D 1 3 (smoeScaleMap 2 cexAct)) =
      normalize2D 1 3 (smoeScaleMap 2 cexAct) :=
    bilinearResize_self 1 3 one_pos (by norm_num) _
  simp only [combineForward, procMap, List.map, List.length_cons, List.length_nil,
    Finset.sum_range_one, List.getD_cons_zero, List.sum_cons, List.sum_nil, Bool.false_eq_true,
    if_false]
  rw [hr]
  norm_num [Finset.sum_range_one, List.getD_cons_zero, cex_norm]

lemma cex_single_val :
    (singlePassPipeline 1 3 false [1] [cexHook] cexIn).1 0 0 1 = 1 / 2 :=
  cex_combine_val

lemma cex_call_val :
    ∃ p, smoothGradCall 1 true 0 false 1 3 1 3 cexIn [cexHook] PyW.none uZero = Except.ok p ∧
      p.1 0 0 1 = 1 / 4 := by
  refine ⟨_, rfl, ?_⟩
  have hv : (sgIterMaps 1 3 false (List.replicate [cexHook].length 1) [cexHook]
      (sgModelInput cexIn (sgStdev 0 1 3 1 3 cexIn) uZero 0)).1 0 0 1 = 1 / 2 := cex_combine_val
  rw [sgAccum_magnitude]
  simp only [Finset.sum_range_one]
  rw [hv]
  norm_num

lemma smoothGradCall_ok (iters : ℕ) (magnitude : Bool) (spread : ℝ) (mapsMag : Bool)
    (b c inH inW : ℕ) (inT : T4) (hooks : List Hook) (weights : PyW) (u : ℕ → T4)
    (ws : List ℝ) (hws : combineInitWeights weights hooks.length = Except.ok ws)
    (hh : 0 < inH) (hw : 0 < inW) (hl : 0 < hooks.length) :
    smoothGradCall iters magnitude spread mapsMag b c inH inW inT hooks weights u =
      Except.ok
        (fun i y j => (sgAccum magnitude (fun t => sgIterMaps inH inW mapsMag ws hooks
            (sgModelInput inT (sgStdev spread b c inH inW inT) u t)) iters).1 i y j / iters,
          fun i l y j => (sgAccum magnitude (fun t => sgIterMaps inH inW mapsMag ws hooks
            (sgModelInput inT (sgStdev spread b c inH inW inT) u t)) iters).2 i l y j / iters) := by
  unfold smoothGradCall
  rw [if_pos ⟨hh, hw, hl⟩, hws]

/-- Claim C2: in non-debug mode, when the aggregation `magnitude` flag of
`SmoothGrad` is set, the final combined and stacked results are exactly the
sum over the `iters` iterations of the elementwise square of each
per-iteration map, divided by `iters` (a linear mean of squares, with no
final square root); when `magnitude` is not set, the results are the plain
arithmetic mean of the per-iteration maps. -/
theorem sg_aggregation_policy (iters : ℕ) (spread : ℝ) (mapsMag : Bool)
    (b c inH inW : ℕ) (inT : T4) (hooks : List Hook) (weights : PyW) (u : ℕ → T4)
    (ws : List ℝ) (hws : combineInitWeights weights hooks.length = Except.ok ws)
    (hh : 0 < inH) (hw : 0 < inW) (hl : 0 < hooks.length) :
    (smoothGradCall iters true spread mapsMag b c inH inW inT hooks weights u =
      Except.ok
        (fun i y j => (∑ t ∈ Finset.range iters,
            (sgIterMaps inH inW mapsMag ws hooks
              (sgModelInput inT (sgStdev spread b c inH inW inT) u t)).1 i y j *
            (sgIterMaps inH inW mapsMag ws hooks
              (sgModelInput inT (sgStdev spread b c inH inW inT) u t)).1 i y j) / iters,
          fun i l y j => (∑ t ∈ Finset.range iters,
            (sgIterMaps inH inW mapsMag ws hooks
              (sgModelInput inT (sgStdev spread b c inH inW inT) u t)).2 i l y j *
            (sgIterMaps inH inW mapsMag ws hooks
              (sgModelInput inT (sgStdev spread b c inH inW inT) u t)).2 i l y j) / iters))
    ∧ (smoothGradCall iters false spread mapsMag b c inH inW inT hooks weights u =
      Except.ok
        (fun i y j => (∑ t ∈ Finset.range iters,
            (sgIterMaps inH inW mapsMag ws hooks
              (sgModelInput inT (sgStdev spread b c inH inW inT) u t)).1 i y j) / iters,
          fun i l y j => (∑ t ∈ Finset.range iters,
            (sgIterMaps inH inW mapsMag ws hooks
              (sgModelInput inT (sgStdev spread b c inH inW inT) u t)).2 i l y j) / iters)) := by
  constructor
  · rw [smoothGradCall_ok iters true spread mapsMag b c inH inW inT hooks weights u ws hws
      hh hw hl, sgAccum_magnitude]
  · rw [smoothGradCall_ok iters false spread mapsMag b c inH inW inT hooks weights u ws hws
      hh hw hl, sgAccum_linear]

/-- Witness for C2 at a concrete instantiation (one hook, one iteration). -/
theorem sg_aggregation_policy_witness :
    combineInitWeights PyW.none (List.length [Hook.mk 1 1 1 fun _ => zero4]) =
        Except.ok [1]
      ∧ smoothGradCall 1 true 0 false 1 1 1 1 zero4 [Hook.mk 1 1 1 fun _ => zero4]
          PyW.none uZero =
        Except.ok
          (fun i y j => (∑ t ∈ Finset.range 1,
              (sgIterMaps 1 1 false [1] [Hook.mk 1 1 1 fun _ => zero4]
                (sgModelInput zero4 (sgStdev 0 1 1 1 1 zero4) uZero t)).1 i y j *
              (sgIterMaps 1 1 false [1] [Hook.mk 1 1 1 fun _ => zero4]
                (sgModelInput zero4 (sgStdev 0 1 1 1 1 zero4) uZero t)).1 i y j) / (1 : ℕ),
            fun i l y j => (∑ t ∈ Finset.range 1,
              (sgIterMaps 1 1 false [1] [Hook.mk 1 1 1 fun _ => zero4]
                (sgModelInput zero4 (sgStdev 0 1 1 1 1 zero4) uZero t)).2 i l y j *
              (sgIterMaps 1 1 false [1] [Hook.mk 1 1 1 fun _ => zero4]
                (sgModelInput zero4 (sgStdev 0 1 1 1 1 zero4) uZero t)).2 i l y j) / (1 : ℕ)) :=
  ⟨rfl, (sg_aggregation_policy 1 0 false 1 1 1 1 zero4 [Hook.mk 1 1 1 fun _ => zero4]
    PyW.none uZero [1] rfl one_pos one_pos (by norm_num)).1⟩

/-- Claim C8: in every aggregator invocation the Gaussian noise standard
deviation is the single scalar `stdev_spread * (max(input) - min(input))`
computed from the unperturbed input, the same scalar is used by every
iteration, and iteration `t` runs the pipeline on the original input plus a
fresh draw scaled by that scalar - perturbations are never cumulative. -/
theorem sg_noise_scale_once (iters : ℕ) (magnitude : Bool) (spread : ℝ) (mapsMag : Bool)
    (b c inH inW : ℕ) (inT : T4) (hooks : List Hook) (weights : PyW) (u : ℕ → T4)
    (ws : List ℝ) (hws : combineInitWeights weights hooks.length = Except.ok ws)
    (hh : 0 < inH) (hw : 0 < inW) (hl : 0 < hooks.length) :
    smoothGradCall iters magnitude spread mapsMag b c inH inW inT hooks weights u =
      Except.ok
        (fun i y j => (sgAccum magnitude (fun t => sgIterMaps inH inW mapsMag ws hooks
            (fun a k y2 j2 => inT a k y2 j2 +
              spread * (tmax4 b c inH inW inT - tmin4 b c inH inW inT) * u t a k y2 j2))
            iters).1 i y j / iters,
          fun i l y j => (sgAccum magnitude (fun t => sgIterMaps inH inW mapsMag ws hooks
            (fun a k y2 j2 => inT a k y2 j2 +
              spread * (tmax4 b c inH inW inT - tmin4 b c inH inW inT) * u t a k y2 j2))
            iters).2 i l y j / iters) :=
  smoothGradCall_ok iters magnitude spread mapsMag b c inH inW inT hooks weights u ws hws
    hh hw hl

/-- Witness for C8 at a concrete instantiation. -/
theorem sg_noise_scale_once_witness :
    combineInitWeights PyW.none (List.length [Hook.mk 1 1 1 fun _ => zero4]) =
        Except.ok [1]
      ∧ smoothGradCall 1 false 0 false 1 1 1 1 zero4 [Hook.mk 1 1 1 fun _ => zero4]
          PyW.none uZero =
        Except.ok
          (fun i y j => (sgAccum false (fun t => sgIterMaps 1 1 false [1]
              [Hook.mk 1 1 1 fun _ => zero4]
              (fun a k y2 j2 => zero4 a k y2 j2 +
                0 * (tmax4 1 1 1 1 zero4 - tmin4 1 1 1 1 zero4) * uZero t a k y2 j2))
              1).1 i y j / (1 : ℕ),
            fun i l y j => (sgAccum false (fun t => sgIterMaps 1 1 false [1]
              [Hook.mk 1 1 1 fun _ => zero4]
              (fun a k y2 j2 => zero4 a k y2 j2 +
                0 * (tmax4 1 1 1 1 zero4 - tmin4 1 1 1 1 zero4) * uZero t a k y2 j2))
              1).2 i l y j / (1 : ℕ)) :=
  ⟨rfl, sg_noise_scale_once 1 false 0 false 1 1 1 1 zero4 [Hook.mk 1 1 1 fun _ => zero4]
    PyW.none uZero [1] rfl one_pos one_pos (by norm_num)⟩

/-- Claim C5 counterexample: with the aggregation `magnitude` flag set (the
constructor default of `SmoothGrad`), one iteration at noise scale zero does
not reproduce the single-pass pipeline - the combined output is the square
of the single-pass map (value 1/4 instead of 1/2 at the probed pixel). -/
theorem sg_single_pass_claim_false :
    smoothGradCall 1 true 0 false 1 3 1 3 cexIn [cexHook] PyW.none uZero ≠
      Except.ok (singlePassPipeline 1 3 false [1] [cexHook] cexIn) := by
  obtain ⟨p, hp, hval⟩ := cex_call_val
  intro hcon
  rw [hp] at hcon
  have h1 : p = singlePassPipeline 1 3 false [1] [cexHook] cexIn := Except.ok.inj hcon
  have h2 := congrArg (fun q : T3 × T4 => q.1 0 0 1) h1
  simp only at h2
  rw [hval, cex_single_val] at h2
  norm_num at h2

/-- Claim C5 amended: with linear (non-magnitude) aggregation selected, the
aggregator invoked with `iters=1` and a noise scale equal to `0` produces
exactly the single-pass pipeline result: normalize(scale(activation)) per
layer, fed into the combiner. -/
theorem sg_iters_one_single_pass (spread : ℝ) (mapsMag : Bool) (b c inH inW : ℕ)
    (inT : T4) (hooks : List Hook) (weights : PyW) (u : ℕ → T4) (ws : List ℝ)
    (hws : combineInitWeights weights hooks.length = Except.ok ws)
    (hh : 0 < inH) (hw : 0 < inW) (hl : 0 < hooks.length)
    (hσ : sgStdev spread b c inH inW inT = 0) :
    smoothGradCall 1 false spread mapsMag b c inH inW inT hooks weights u =
      Except.ok (singlePassPipeline inH inW mapsMag ws hooks inT) := by
  rw [smoothGradCall_ok 1 false spread mapsMag b c inH inW inT hooks weights u ws hws
    hh hw hl]
  have hinp : sgModelInput inT (sgStdev spread b c inH inW inT) u 0 = inT := by
    funext a k y j
    simp [sgModelInput, hσ]
  rw [sgAccum_linear]
  simp only [Finset.sum_range_one, hinp, Nat.cast_one, div_one]
  rfl

/-- Witness for the amended C5 at a concrete instantiation. -/
theorem sg_iters_one_single_pass_witness :
    combineInitWeights PyW.none (List.length [Hook.mk 1 1 1 fun _ => zero4]) =
        Except.ok [1]
      ∧ sgStdev 0 1 1 1 1 zero4 = 0
      ∧ smoothGradCall 1 false 0 false 1 1 1 1 zero4 [Hook.mk 1 1 1 fun _ => zero4]
          PyW.none uZero =
        Except.ok (singlePassPipeline 1 1 false [1] [Hook.mk 1 1 1 fun _ => zero4] zero4) :=
  ⟨rfl, by simp [sgStdev],
    sg_iters_one_single_pass 0 false 1 1 1 1 zero4 [Hook.mk 1 1 1 fun _ => zero4]
      PyW.none uZero [1] rfl one_pos one_pos (by norm_num) (by simp [sgStdev])⟩

lemma tneX_mean : chanMean 2 tneX 0 0 0 = 0 := by
  simp [chanMean, tneX, Finset.sum_range_succ]

lemma tneX_std : chanStd 2 tneX 0 0 0 = Real.sqrt 2 := by
  rw [chanStd, tneX_mean]
  norm_num [tneX, Finset.sum_range_succ]

/-- Claim C1 counterexample: on the two-channel input with channel values
`-1` and `1` (channel mean `0`, hence truncation point `alpha = 0`), the
source computes `log(sqrt(2 pi e) * sqrt(2) * (1/2 - eps))` while the
claimed formula with `Z = 1 - Phi(alpha) + eps` gives
`log(sqrt(2 pi e) * sqrt(2) * (1/2 + eps))`; the two differ. -/
theorem trunc_ent_claim_false :
    truncNormalEntMap 2 tneX 0 0 0 ≠ claimedTruncNormalEnt 2 tneX 0 0 0 := by
  have htc3 : 0 < tc3 := Real.sqrt_pos.mpr (by positivity)
  have hs2 : 0 < Real.sqrt 2 := Real.sqrt_pos.mpr (by norm_num)
  have hcode : truncNormalEntMap 2 tneX 0 0 0 =
      Real.log (tc3 * Real.sqrt 2 * (1 / 2 - eps)) := by
    simp only [truncNormalEntMap, tneX_mean, tneX_std, computeAlpha, computeCdf, computePdf]
    rw [show (0 : ℝ) - 0 = 0 by ring, zero_div, zero_div, erf_zero]
    ring_nf
  have hclaim : claimedTruncNormalEnt 2 tneX 0 0 0 =
      Real.log (Real.sqrt (2 * Real.pi * Real.exp 1) * Real.sqrt 2 * (1 / 2 + eps)) := by
    simp only [claimedTruncNormalEnt, tneX_mean, tneX_std]
    rw [show (0 : ℝ) - 0 = 0 by ring, zero_div, zero_div, erf_zero]
    ring_nf
  rw [hcode, hclaim]
  have harg : tc3 * Real.sqrt 2 * (1 / 2 - eps) <
      Real.sqrt (2 * Real.pi * Real.exp 1) * Real.sqrt 2 * (1 / 2 + eps) := by
    unfold tc3 at htc3 ⊢
    have h1 : (1 : ℝ) / 2 - eps < 1 / 2 + eps := by norm_num [eps]
    have h2 : 0 < Real.sqrt (2 * Real.pi * Real.exp 1) * Real.sqrt 2 := mul_pos htc3 hs2
    exact mul_lt_mul_of_pos_left h1 h2
  have hpos : 0 < tc3 * Real.sqrt 2 * (1 / 2 - eps) := by
    apply mul_pos (mul_pos htc3 hs2)
    norm_num [eps]
  exact ne_of_lt (Real.log_lt_log hpos harg)

/-- Claim C1 amended: for every input and pixel, the statistic the source
computes equals
`log(sqrt(2 pi e) * s * Z) + (alpha * phi(alpha)) / (2 * Z)` with the
survival term `Z = 1 - (Phi(alpha) + eps)` - the epsilon is added to the
cdf before the survival is formed, not to the survival itself. -/
theorem trunc_ent_matches_amended_formula (c : ℕ) (x : T4) (i y j : ℕ) :
    truncNormalEntMap c x i y j = amendedTruncNormalEnt c x i y j := by
  simp only [truncNormalEntMap, amendedTruncNormalEnt, computeAlpha, computePdf, computeCdf,
    tc1, tc2, tc3]
  ring_nf

/-- Claim C6: `Normalize2D` computes, per batch sample,
`0.5 * (1 + erf((x - m)/(s * sqrt 2)))` with `m` and `s` the mean and
standard deviation over the sample's flattened spatial values, and every
output value lies in `[0, 1]`. -/
theorem normalize2D_range_and_formula (h w : ℕ) (x : T3) (i y j : ℕ) :
    normalize2D h w x i y j =
        0.5 * (1 + erf ((x i y j - spatMean h w x i) / (spatStd h w x i * Real.sqrt 2)))
      ∧ 0 ≤ normalize2D h w x i y j ∧ normalize2D h w x i y j ≤ 1 := by
  refine ⟨rfl, ?_, ?_⟩
  · have h1 := neg_one_le_erf ((x i y j - spatMean h w x i) / (spatStd h w x i * Real.sqrt 2))
    unfold normalize2D
    nlinarith
  · have h1 := erf_le_one ((x i y j - spatMean h w x i) / (spatStd h w x i * Real.sqrt 2))
    unfold normalize2D
    nlinarith

/-- Claim C7: for a strictly positive input whose channel values at a pixel
are not all equal, the SMOE-scale statistic at that pixel is non-negative
(the log of the channel mean dominates the mean of the channel logs by
AM-GM, and the channel mean is positive); in the real-number model the value
is automatically finite. -/
theorem smoe_nonneg (c : ℕ) (x : T4) (i y j : ℕ)
    (hpos : ∀ k, k < c → 0 < x i k y j)
    (hne : ∃ k1, k1 < c ∧ ∃ k2, k2 < c ∧ x i k1 y j ≠ x i k2 y j) :
    0 ≤ smoeScaleMap c x i y j := by
  obtain ⟨k1, hk1, -⟩ := hne
  have hc : 0 < c := lt_of_le_of_lt (Nat.zero_le _) hk1
  have heps : (0 : ℝ) < eps := by norm_num [eps]
  have hfpos : ∀ k, k < c → 0 < x i k y j + eps :=
    fun k hk => add_pos (hpos k hk) heps
  have hm : 0 < (∑ k ∈ Finset.range c, (x i k y j + eps)) / c := by
    apply div_pos _ (Nat.cast_pos.mpr hc)
    exact Finset.sum_pos (fun k hk => hfpos k (Finset.mem_range.mp hk))
      (Finset.nonempty_range_iff.mpr hc.ne')
  have hj := log_mean_le c hc (fun k => x i k y j + eps) hfpos
  have hlog2 : 0 < Real.log 2 := Real.log_pos one_lt_two
  have hk : 0 ≤ Real.logb 2 ((∑ k ∈ Finset.range c, (x i k y j + eps)) / c) -
      (∑ k ∈ Finset.range c, Real.logb 2 (x i k y j + eps)) / c := by
    simp only [Real.logb]
    rw [sub_nonneg]
    have hsum : (∑ k ∈ Finset.range c, Real.log (x i k y j + eps) / Real.log 2) / c =
        ((∑ k ∈ Finset.range c, Real.log (x i k y j + eps)) / c) / Real.log 2 := by
      rw [← Finset.sum_div]
      ring
    rw [hsum]
    exact div_le_div_of_nonneg_right hj hlog2.le
  exact mul_nonneg hk hm.le

/-- Witness for C7 at a concrete positive two-channel input with distinct
channel values. -/
theorem smoe_nonneg_witness :
    (∀ k, k < 2 → (0 : ℝ) < (fun (_ k _ _ : ℕ) => (k : ℝ) + 1) 0 k 0 0)
      ∧ (∃ k1, k1 < 2 ∧ ∃ k2, k2 < 2 ∧
          (fun (_ k _ _ : ℕ) => (k : ℝ) + 1) 0 k1 0 0 ≠
          (fun (_ k _ _ : ℕ) => (k : ℝ) + 1) 0 k2 0 0)
      ∧ 0 ≤ smoeScaleMap 2 (fun _ k _ _ => (k : ℝ) + 1) 0 0 0 := by
  refine ⟨fun k _ => by positivity, ⟨0, one_pos.trans one_lt_two, 1, one_lt_two, by norm_num⟩, ?_⟩
  exact smoe_nonneg 2 (fun _ k _ _ => (k : ℝ) + 1) 0 0 0 (fun k _ => by positivity)
    ⟨0, one_pos.trans one_lt_two, 1, one_lt_two, by norm_num⟩

/-- Claim C3 (code bug): supplying a single scalar weight, or a one-element
weight list, to `CombineSaliencyMaps.__init__` does not broadcast it - it
raises `TypeError` (a bare float has no `len`; a one-element list hits
`assert(weights > 0)`, a list-versus-int comparison), so construction never
reaches the broadcast the docstring and specification intend. -/
theorem combine_init_broadcast_raises :
    combineInitWeights (PyW.float 1) 5 =
        Except.error "TypeError: object of type float has no len"
      ∧ combineInitWeights (PyW.list [1]) 5 =
        Except.error "TypeError: gt not supported between instances of list and int" :=
  ⟨rfl, rfl⟩

/-- Claim C4 counterexample: constructing the combiner with `map_num = 1` and
`weights = [1.0]` raises `TypeError` in the weight validation, so the
identity property cannot even be reached with an explicit `[1.0]`. -/
theorem combine_identity_weights_raise :
    combineInitWeights (PyW.list [1]) 1 =
      Except.error "TypeError: gt not supported between instances of list and int" :=
  rfl

/-- Claim C4 amended: with the weights argument omitted (`None`, which the
constructor turns into the per-layer weight `[1.0]`), `map_num = 1`,
`magnitude = false`, and an output size equal to the map's own spatial
resolution, the combined output of the forward pass equals the input map
(identity under trivial resize). -/
theorem combine_forward_identity (h w : ℕ) (hh : 0 < h) (hw : 0 < w) (M : T3) :
    combineInitWeights PyW.none 1 = Except.ok [1]
      ∧ (combineForward h w [1] false [((h, w), M)]).1 = M := by
  refine ⟨rfl, ?_⟩
  have hr : bilinearResize h w h w M = M := bilinearResize_self h w hh hw M
  funext i y j
  simp only [combineForward, procMap, List.map, List.length_cons, List.length_nil,
    Finset.sum_range_one, List.getD_cons_zero, List.sum_cons, List.sum_nil, Bool.false_eq_true,
    if_false]
  rw [hr]
  norm_num

/-- Witness for the amended C4 at a concrete map. -/
theorem combine_forward_identity_witness :
    (0 : ℕ) < 1 ∧ (combineForward 1 1 [1] false [((1, 1), zero3)]).1 = zero3 :=
  ⟨one_pos, (combine_forward_identity 1 1 one_pos one_pos zero3).2⟩

/-- Claim C9 counterexample: for an output-side observer that captured a
tensor with leading extent 1, `get(0)` returns the 3D slice `data[0]` of the
captured tensor, not the single captured 4D output tensor itself. -/
theorem capture_get_returns_slice :
    captureGet (captureOutputCall ⟨Option.none, Option.none⟩ 0 1 zero4) 0 ≠
      Except.ok (some (PyObj.t4 zero4)) := by
  intro hcon
  exact PyObj.noConfusion (Option.some.inj (Except.ok.inj hcon))

/-- Claim C9 amended: an observer reports absence when no capture has ever
succeeded (never invoked, or no invocation matched the configured device); a
device-mismatched invocation leaves the state unchanged; after a matched
invocation, `get idx` on an input-side observer returns the `idx`-th
captured input tensor (one per argument position), while on an output-side
observer it returns the `idx`-th slice along the first axis of the single
captured output tensor (the whole tensor being the stored data value). -/
theorem capture_observer_spec (dev : Option ℕ) (od oB : ℕ) (o : T4)
    (inputs : List T4) (d0 : Option PyData) (idx : ℕ) :
    captureGet ⟨dev, Option.none⟩ idx = Except.ok Option.none
    ∧ (dev ≠ Option.none ∧ dev ≠ some od →
        captureOutputCall ⟨dev, d0⟩ od oB o = ⟨dev, d0⟩ ∧
        captureInputCall ⟨dev, d0⟩ od inputs = ⟨dev, d0⟩)
    ∧ (dev = Option.none ∨ dev = some od →
        (idx < oB →
          captureGet (captureOutputCall ⟨dev, d0⟩ od oB o) idx =
            Except.ok (some (PyObj.t3 fun k y j => o idx k y j)))
        ∧ ∀ hidx : idx < inputs.length,
          captureGet (captureInputCall ⟨dev, d0⟩ od inputs) idx =
            Except.ok (some (PyObj.t4 (inputs.get ⟨idx, hidx⟩)))) := by
  refine ⟨rfl, ?_, ?_⟩
  · rintro ⟨h1, h2⟩
    refine ⟨?_, ?_⟩
    · unfold captureOutputCall
      rw [if_neg (not_or.mpr ⟨h1, h2⟩)]
    · unfold captureInputCall
      rw [if_neg (not_or.mpr ⟨h1, h2⟩)]
  · intro hm
    refine ⟨?_, ?_⟩
    · intro hB
      unfold captureOutputCall
      rw [if_pos hm]
      unfold captureGet
      simp only [pyDataLen, pyDataItem]
      rw [if_pos (le_of_lt hB), if_pos hB]
      rfl
    · intro hidx
      unfold captureInputCall
      rw [if_pos hm]
      unfold captureGet
      simp only [pyDataLen, pyDataItem]
      rw [if_pos (le_of_lt hidx), List.getElem?_eq_getElem hidx]
      rfl

/-- Witness for the amended C9: a matched output-side capture queried at
index 0. -/
theorem capture_observer_spec_witness :
    (0 : ℕ) < 1 ∧
    captureGet (captureOutputCall ⟨some 0, Option.none⟩ 0 1 zero4) 0 =
      Except.ok (some (PyObj.t3 fun k y j => zero4 0 k y j)) :=
  ⟨one_pos, ((capture_observer_spec (some 0) 0 1 zero4 [] Option.none 0).2.2
    (Or.inr rfl)).1 one_pos⟩

lemma sgHeapIter_frame (magnitude : Bool) (stdev : ℝ) (inH inW : ℕ) (mapsMag : Bool)
    (ws : List ℝ) (hooks : List Hook) (u : ℕ → T4) (debug : Bool)
    (inAddr cAddr sAddr i n0 : ℕ) (st : Store)
    (hA : inAddr < n0) (hC : n0 ≤ cAddr) (hS : n0 ≤ sAddr) (hlen : n0 ≤ st.length) :
    (sgHeapIter magnitude stdev inH inW mapsMag ws hooks u debug inAddr cAddr sAddr i
        st)[inAddr]? = st[inAddr]?
      ∧ n0 ≤ (sgHeapIter magnitude stdev inH inW mapsMag ws hooks u debug inAddr cAddr sAddr i
        st).length := by
  have hlt : inAddr < st.length := lt_of_lt_of_le hA hlen
  have hne1 : cAddr ≠ inAddr := (lt_of_lt_of_le hA hC).ne'
  have hne2 : sAddr ≠ inAddr := (lt_of_lt_of_le hA hS).ne'
  have happ : ∀ l : List HVal, (st ++ l)[inAddr]? = st[inAddr]? :=
    fun l => List.getElem?_append_left hlt
  have hlen2 : ∀ l : List HVal, n0 ≤ (st ++ l).length := by
    intro l
    rw [List.length_append]
    omega
  unfold sgHeapIter
  cases debug with
  | true =>
    simp only [if_true]
    exact ⟨happ _, hlen2 _⟩
  | false =>
    cases magnitude with
    | true =>
      simp only [Bool.false_eq_true, if_false, if_true]
      refine ⟨?_, ?_⟩
      · rw [List.getElem?_set_ne hne2, List.getElem?_set_ne hne1]
        exact happ _
      · rw [List.length_set, List.length_set]
        exact hlen2 _
    | false =>
      simp only [Bool.false_eq_true, if_false]
      refine ⟨?_, ?_⟩
      · rw [List.getElem?_set_ne hne2, List.getElem?_set_ne hne1]
        exact happ _
      · rw [List.length_set, List.length_set]
        exact hlen2 _

lemma sgHeapLoop_frame (magnitude : Bool) (stdev : ℝ) (inH inW : ℕ) (mapsMag : Bool)
    (ws : List ℝ) (hooks : List Hook) (u : ℕ → T4) (debug : Bool)
    (inAddr cAddr sAddr n0 : ℕ)
    (hA : inAddr < n0) (hC : n0 ≤ cAddr) (hS : n0 ≤ sAddr) :
    ∀ (n : ℕ) (st : Store), n0 ≤ st.length →
      (sgHeapLoop (sgHeapIter magnitude stdev inH inW mapsMag ws hooks u debug
          inAddr cAddr sAddr) n st)[inAddr]? = st[inAddr]?
        ∧ n0 ≤ (sgHeapLoop (sgHeapIter magnitude stdev inH inW mapsMag ws hooks u debug
          inAddr cAddr sAddr) n st).length := by
  intro n
  induction n with
  | zero => exact fun st hlen => ⟨rfl, hlen⟩
  | succ n ih =>
    intro st hlen
    obtain ⟨h1, h2⟩ := ih st hlen
    obtain ⟨h3, h4⟩ := sgHeapIter_frame magnitude stdev inH inW mapsMag ws hooks u debug
      inAddr cAddr sAddr n n0
      (sgHeapLoop (sgHeapIter magnitude stdev inH inW mapsMag ws hooks u debug
        inAddr cAddr sAddr) n st) hA hC hS h2
    exact ⟨h3.trans h1, h4⟩

/-- Claim C10: an invocation of the aggregator leaves the caller's input
tensor unchanged - in the store-passing model of `SmoothGrad.__call__`,
every iteration allocates the noise and the perturbed input as fresh cells
and the in-place writes (`+=` accumulation and the final `/=`) only ever
target the two accumulator cells allocated by the call itself, so the store
cell holding the input is bit-for-bit the same after the call. -/
theorem sg_input_unchanged (iters : ℕ) (magnitude : Bool) (spread : ℝ) (mapsMag : Bool)
    (b c inH inW : ℕ) (ws : List ℝ) (hooks : List Hook) (u : ℕ → T4) (debug : Bool)
    (st : Store) (inAddr : ℕ) (hA : inAddr < st.length) :
    ((sgHeapCall iters magnitude spread mapsMag b c inH inW ws hooks u debug
        st inAddr).1)[inAddr]? = st[inAddr]? := by
  have hne1 : st.length ≠ inAddr := hA.ne'
  have hne2 : st.length + 1 ≠ inAddr := (Nat.lt_succ_of_lt hA).ne'
  unfold sgHeapCall
  cases debug with
  | true =>
    simp only [if_true]
    exact (sgHeapLoop_frame magnitude _ inH inW mapsMag ws hooks u true
      inAddr st.length (st.length + 1) st.length hA le_rfl (Nat.le_succ _) iters st le_rfl).1
  | false =>
    simp only [Bool.false_eq_true, if_false]
    have hlen1 : st.length ≤ (st ++ [HVal.v3 zero3, HVal.v4 zero4]).length := by
      rw [List.length_append]
      omega
    obtain ⟨h1, h2⟩ := sgHeapLoop_frame magnitude _ inH inW mapsMag ws hooks u false
      inAddr st.length (st.length + 1) st.length hA le_rfl (Nat.le_succ _) iters
      (st ++ [HVal.v3 zero3, HVal.v4 zero4]) hlen1
    rw [List.getElem?_set_ne hne2, List.getElem?_set_ne hne1, h1]
    exact List.getElem?_append_left hA

/-- Witness for C10 at a concrete one-cell store holding the input tensor. -/
theorem sg_input_unchanged_witness :
    (0 : ℕ) < List.length [HVal.v4 zero4] ∧
    ((sgHeapCall 1 true 0 false 1 1 1 1 [1] [Hook.mk 1 1 1 fun _ => zero4] uZero false
        [HVal.v4 zero4] 0).1)[0]? = [HVal.v4 zero4][0]? :=
  ⟨one_pos, sg_input_unchanged 1 true 0 false 1 1 1 1 [1] [Hook.mk 1 1 1 fun _ => zero4]
    uZero false [HVal.v4 zero4] 0 one_pos⟩

end FastCam
